import Mathlib

/-!
Shallow embedding of the atooms trajectory core (`atooms/trajectory/base.py`
and `atooms/trajectory/decorators.py`) and proofs about the behaviour of
`TrajectoryBase.write`, `TrajectoryBase.__getitem__`,
`TrajectoryBase.register_callback`, the `Centered` and `Unfolded` decorators,
and the `SuperTrajectory` index construction.

Conventions of the embedding:
* Python exceptions become an explicit `Except` result; raising exception `e`
  is returning `Except.error e`.
* Mutable object state is passed explicitly: a method that mutates `self`
  returns the updated state alongside its outcome.
* Machine-independent Python integers become `Int`/`Nat`; numpy float arrays
  become lists of rationals (`ℚ`), tracking one Cartesian component per
  particle, since every numpy operation used by the source is componentwise.
-/

namespace Atooms

/-- The Python exception kinds raised by the embedded code, with their
messages. -/
inductive PyExc where
  | ioError (msg : String)
  | valueError (msg : String)
  | indexError (msg : String)
  | typeError (msg : String)
deriving DecidableEq

/-- Trajectory open mode: the source distinguishes only `'r'` from the
rest (`mode == 'r'` checks). -/
inductive Mode where
  | r
  | w
deriving DecidableEq

/-- The `TrajectoryBase` state relevant to writing: `mode`, the `steps` list
and the `_initialized_write` flag (`base.py` lines 59-81; a fresh trajectory
has `steps = []` and `_initialized_write = False`). -/
structure Traj where
  mode : Mode
  steps : List Int
  initialized_write : Bool
deriving DecidableEq

/-- `TrajectoryBase.write` (`base.py` lines 131-142).  `writeSample` is the
outcome of the subclass `write_sample(system, step)` call, which the template
only propagates: on success the step is appended to `steps` unless already
present; a raised exception propagates before `steps` is touched.
`write_init` is a no-op hook in the base class; its lazy invocation is
recorded by setting `initialized_write`.  Returns the updated state and the
call outcome. -/
def write (t : Traj) (writeSample : Except PyExc Unit) (step : Int) :
    Traj × Except PyExc Unit :=
  if t.mode = Mode.r then
    (t, Except.error (PyExc.ioError "trajectory file not open for writing"))
  else
    let t := { t with initialized_write := true }
    match writeSample with
    | Except.error e => (t, Except.error e)
    | Except.ok _ =>
        ({ t with steps := if step ∈ t.steps then t.steps else t.steps ++ [step] },
         Except.ok ())

/-- A sequence of successful `write` calls at the given steps. -/
def writeMany (t : Traj) (l : List Int) : Traj :=
  l.foldl (fun t s => (write t (Except.ok ()) s).1) t

/-- Access key for `TrajectoryBase.__getitem__`: an integer, a slice, or some
other Python object (modelled by its string form, e.g. the key `"x"`). -/
inductive Key where
  | int (i : Int)
  | slice (start stop step : Option Int)
  | str (s : String)

/-- Result of `__getitem__`: delegation to `self.read(i)` at a resolved
integer index, or, for a slice key, delegation to
`[self.read(i) for i in range(len(steps))[key]]`; the slice branch records
the delegation without computing Python's slice index arithmetic, which no
claim needs. -/
inductive GetResult where
  | readAt (i : Int)
  | readSlice (start stop step : Option Int)
deriving DecidableEq

/-- `TrajectoryBase.__getitem__` (`base.py` lines 98-115), parametrised by
`n = len(self) = len(self.steps)`.  An integer key is shifted by `n` once if
negative, then checked against the upper bound only; any key that is neither
a slice nor an integer raises `TypeError` (message `Invalid argument type
[...]` built from the key's type, abbreviated here). -/
def getitem (n : Nat) (key : Key) : Except PyExc GetResult :=
  match key with
  | Key.slice a b c => Except.ok (GetResult.readSlice a b c)
  | Key.int k =>
      let k := if k < 0 then k + n else k
      if k ≥ (n : Int) then
        Except.error (PyExc.indexError
          ("Index (" ++ toString k ++ ") is out of range (" ++ toString n ++ ")."))
      else
        Except.ok (GetResult.readAt k)
  | Key.str _ => Except.error (PyExc.typeError "Invalid argument type [str]")

/-- A tiny universe of Python values for the callback registry: function
objects (identified by a tag) and lists built from cons cells.  Python's
`x in lst` tests `x == e` against each element `e`; equality of these values
is structural, so a function object never equals a list. -/
inductive PyVal where
  | func (tag : Nat)
  | pynil
  | pycons (hd tl : PyVal)
deriving DecidableEq

/-- The Python list literal `[a, b, c]` as cons cells. -/
def pyList3 (a b c : PyVal) : PyVal :=
  PyVal.pycons a (PyVal.pycons b (PyVal.pycons c PyVal.pynil))

/-- `TrajectoryBase.register_callback` (`base.py` lines 167-169): when
`cbk not in self.callbacks`, append the list `[cbk, args, kwargs]` to
`self.callbacks`.  Note the membership test compares `cbk` itself with the
stored three-element lists. -/
def register_callback (callbacks : List PyVal) (cbk args kwargs : PyVal) :
    List PyVal :=
  if cbk ∈ callbacks then callbacks
  else callbacks ++ [pyList3 cbk args kwargs]

/-- One frame: particle positions and the cell side (`s.particle[i].position`
and `s.cell.side`).  The numpy operations of the decorators are
componentwise, so the embedding tracks one Cartesian component per particle
(`pos : List ℚ`) with `side` the cell side along that component. -/
structure Frame where
  pos : List ℚ
  side : ℚ
deriving DecidableEq

/-- `Centered.read_sample` (`decorators.py` lines 82-90): if the key is in
the `__done` list, return immediately (Python's bare `return`, i.e. `none`);
otherwise append the key to `__done`, delegate inward (`inner`, which may
raise), and subtract half the cell side from every particle position.
Returns the updated `__done` list and the outcome. -/
def centered_read_sample (inner : Nat → Except PyExc Frame)
    (done : List Nat) (sample : Nat) :
    List Nat × Except PyExc (Option Frame) :=
  if sample ∈ done then (done, Except.ok none)
  else
    let done := done ++ [sample]
    match inner sample with
    | Except.error e => (done, Except.error e)
    | Except.ok s =>
        (done, Except.ok (some { s with pos := s.pos.map (fun p => p - s.side / 2) }))

/-- `numpy.rint`: round to the nearest integer, ties to the even integer. -/
def rint (x : ℚ) : Int :=
  let f := Int.floor x
  let r := x - f
  if r < 1 / 2 then f
  else if 1 / 2 < r then f + 1
  else if f % 2 = 0 then f else f + 1

/-- The `Unfolded` decorator's private state (`decorators.py` lines 125-130):
`_old`, the accumulated unfolded positions, and `_last_read`, the index of
the last frame read. -/
structure UnfState where
  old : List ℚ
  last_read : Nat
deriving DecidableEq

/-- `Unfolded.read_init` (`decorators.py` lines 125-130): cache the initial
positions and set `_last_read = 0`. -/
def unfolded_read_init (traj : List Frame) : UnfState :=
  { old := (traj.getD 0 { pos := [], side := 0 }).pos, last_read := 0 }

/-- The unfolding update of `Unfolded.read_sample` (`decorators.py` lines
155-159), per component: `dif = pos - _old; dif = dif - rint(dif / L) * L;
_old += dif`, with `L` the current frame's cell side. -/
def unfoldStep (old : List ℚ) (f : Frame) : List ℚ :=
  List.zipWith (fun o p => o + ((p - o) - (rint ((p - o) / f.side) : ℚ) * f.side)) old f.pos

/-- The unconditional tail of `Unfolded.read_sample` (`decorators.py` lines
147-164): read the frame, set `_last_read = sample`, unfold, and write the
accumulated positions back into the returned frame's particles. -/
def unfolded_advance (traj : List Frame) (st : UnfState) (sample : Nat) :
    UnfState × List ℚ :=
  let s := traj.getD sample { pos := [], side := 0 }
  let newOld := unfoldStep st.old s
  ({ old := newOld, last_read := sample }, newOld)

/-- `Unfolded.read_sample` (`decorators.py` lines 132-164): frame 0 is
returned raw immediately (state untouched); `delta = sample - _last_read < 0`
raises `ValueError`; `delta > 1` first reads the skipped frames
`_last_read + 1, ..., sample - 1` in order through recursive `read_sample`
calls (the source's `for i in range(delta - 1)` loop) and then reads
`sample`; the recursion below produces the same frame sequence by recursing
on `sample - 1` before advancing to `sample`.  Returns the new state and the
returned positions. -/
def unfolded_read_sample (traj : List Frame) :
    UnfState → Nat → Except PyExc (UnfState × List ℚ)
  | st, 0 => Except.ok (st, (traj.getD 0 { pos := [], side := 0 }).pos)
  | st, sample + 1 =>
      if ((sample : Int) + 1) - st.last_read < 0 then
        Except.error (PyExc.valueError
          ("cannot unfold jumping backwards (delta=" ++
            toString (((sample : Int) + 1) - st.last_read) ++ ")"))
      else if st.last_read + 1 < sample + 1 then
        match unfolded_read_sample traj st sample with
        | Except.error e => Except.error e
        | Except.ok (st', _) => Except.ok (unfolded_advance traj st' (sample + 1))
      else
        Except.ok (unfolded_advance traj st (sample + 1))

/-- The `SuperTrajectory` index (`base.py` lines 260-262): parallel lists
`steps`, `_steps_file`, `_steps_frame`, one entry per recorded step.  File
paths are modelled as elements of a linearly ordered type `F` (Python
compares path strings lexicographically); `Nat` is used for concrete
instances. -/
structure SuperIndex (F : Type) where
  steps : List Int
  steps_file : List F
  steps_frame : List Nat
deriving DecidableEq

/-- The loop body of `SuperTrajectory.__init__` (`base.py` lines 271-275):
for `js = (j, step)` from `enumerate(t.steps)`, append `(step, f, j)` to the
three parallel lists when `len(self.steps) == 0 or step != self.steps[-1]`,
i.e. when `steps.getLast? ≠ some step`. -/
def superEntry {F : Type} (idx : SuperIndex F) (f : F) (js : Nat × Int) :
    SuperIndex F :=
  if idx.steps.getLast? ≠ some js.2 then
    { steps := idx.steps ++ [js.2],
      steps_file := idx.steps_file ++ [f],
      steps_frame := idx.steps_frame ++ [js.1] }
  else idx

/-- The per-file inner loop of `SuperTrajectory.__init__` (`base.py` lines
270-275): iterate `superEntry` over `enumerate(t.steps)` of the file `f`,
whose step list is given by `trajOf f`. -/
def superFile {F : Type} (trajOf : F → List Int) (idx : SuperIndex F)
    (f : F) : SuperIndex F :=
  ((trajOf f).enum).foldl (fun idx js => superEntry idx f js) idx

/-- `SuperTrajectory.__init__` (`base.py` lines 246-275): raise `ValueError`
on an empty file list; otherwise sort the files (`self.files.sort()`, a
stable ascending sort of the path strings, modelled by `insertionSort` over
the linearly ordered path type) and run the index-building loop over each
file in sorted order, starting from three empty lists. -/
def superInit {F : Type} [LinearOrder F] (trajOf : F → List Int)
    (files : List F) : Except PyExc (SuperIndex F) :=
  if files = [] then Except.error (PyExc.valueError "no files found")
  else
    Except.ok ((List.insertionSort (· ≤ ·) files).foldl (superFile trajOf)
      { steps := [], steps_file := [], steps_frame := [] })

/-- The steps-list accumulation common to `TrajectoryBase`-style index
building: fold the `SuperTrajectory` append-unless-equal-to-last rule over a
list of steps, starting from `acc`. -/
def stepsAcc (acc : List Int) (l : List Int) : List Int :=
  l.foldl (fun a s => if a.getLast? ≠ some s then a ++ [s] else a) acc

/-- Fixture: two frames with one particle at the same component positions 0
and 1 in a cell of side 10 (no boundary crossing). -/
def exTraj : List Frame := [{ pos := [0], side := 10 }, { pos := [1], side := 10 }]

/-- Fixture: one particle crossing the periodic boundary of a cell of side 4
between two frames, the raw component position wrapping from 1 to -2. -/
def crossTraj : List Frame := [{ pos := [1], side := 4 }, { pos := [-2], side := 4 }]

/-- Fixture: three single-frame files (paths modelled as `1`, `2`, `3`)
holding steps `[0]`, `[10]` and `[10]` respectively. -/
def exTrajOf : Nat → List Int := fun f => if f = 1 then [0] else [10]

/-! ## Lemmas about `TrajectoryBase.write` -/

theorem write_mode_eq (t : Traj) (ws : Except PyExc Unit) (s : Int) :
    (write t ws s).1.mode = t.mode := by
  unfold write
  by_cases hm : t.mode = Mode.r
  · simp [hm]
  · cases ws <;> simp [hm]

theorem write_ok_steps (t : Traj) (s : Int) (hm : t.mode = Mode.w) :
    (write t (Except.ok ()) s).1.steps =
      if s ∈ t.steps then t.steps else t.steps ++ [s] := by
  simp [write, hm]

theorem mem_write_ok (t : Traj) (s : Int) (hm : t.mode = Mode.w) :
    s ∈ (write t (Except.ok ()) s).1.steps := by
  rw [write_ok_steps t s hm]
  split
  · assumption
  · simp

theorem write_ok_nodup (t : Traj) (s : Int) (hm : t.mode = Mode.w)
    (h : t.steps.Nodup) : (write t (Except.ok ()) s).1.steps.Nodup := by
  rw [write_ok_steps t s hm]
  split
  · exact h
  · simp [List.nodup_append, h, *]

theorem writeMany_mode (t : Traj) (l : List Int) :
    (writeMany t l).mode = t.mode := by
  induction l generalizing t with
  | nil => rfl
  | cons s l ih =>
      show (writeMany (write t (Except.ok ()) s).1 l).mode = t.mode
      rw [ih, write_mode_eq]

theorem writeMany_nodup (t : Traj) (l : List Int) (hm : t.mode = Mode.w)
    (h : t.steps.Nodup) : (writeMany t l).steps.Nodup := by
  induction l generalizing t with
  | nil => exact h
  | cons s l ih =>
      show (writeMany (write t (Except.ok ()) s).1 l).steps.Nodup
      exact ih _ ((write_mode_eq t _ s).trans hm) (write_ok_nodup t s hm h)

/-- C1: for a trajectory opened in write mode (fresh `steps = []`), any
sequence of successful `write` calls leaves `steps` with each step value at
most once, and a second `write` at a step just written leaves `len(steps)`
unchanged. -/
theorem write_steps_nodup (t : Traj) (l : List Int) (s : Int)
    (hm : t.mode = Mode.w) (h0 : t.steps = []) :
    (writeMany t l).steps.Nodup ∧
    (write (write (writeMany t l) (Except.ok ()) s).1 (Except.ok ()) s).1.steps.length =
      (write (writeMany t l) (Except.ok ()) s).1.steps.length := by
  have hm1 : (writeMany t l).mode = Mode.w := (writeMany_mode t l).trans hm
  have hm2 : (write (writeMany t l) (Except.ok ()) s).1.mode = Mode.w :=
    (write_mode_eq _ _ s).trans hm1
  refine ⟨writeMany_nodup t l hm (h0 ▸ List.nodup_nil), ?_⟩
  rw [write_ok_steps _ s hm2, if_pos (mem_write_ok _ s hm1)]

/-- C1 witness: two writes at steps 3 and 7 from a fresh write-mode
trajectory, then a duplicate write at 7. -/
theorem write_steps_nodup_witness :
    (writeMany ⟨Mode.w, [], false⟩ [3, 7]).steps.Nodup ∧
    (write (write (writeMany ⟨Mode.w, [], false⟩ [3, 7]) (Except.ok ()) 7).1
        (Except.ok ()) 7).1.steps.length =
      (write (writeMany ⟨Mode.w, [], false⟩ [3, 7]) (Except.ok ()) 7).1.steps.length :=
  write_steps_nodup ⟨Mode.w, [], false⟩ [3, 7] 7 rfl rfl

/-- C8: in write mode, when `write_sample` raises, the exception propagates
and `steps` is left unchanged — the step is appended only after
`write_sample` returns. -/
theorem write_error_preserves_steps (t : Traj) (e : PyExc) (step : Int)
    (hm : t.mode = Mode.w) :
    (write t (Except.error e) step).1.steps = t.steps ∧
    (write t (Except.error e) step).2 = Except.error e := by
  simp [write, hm]

/-- C8 witness: a failing `write_sample` at step 7 on a write-mode trajectory
holding step 5. -/
theorem write_error_preserves_steps_witness :
    (write ⟨Mode.w, [5], false⟩ (Except.error (PyExc.ioError "disk full")) 7).1.steps = [5] ∧
    (write ⟨Mode.w, [5], false⟩ (Except.error (PyExc.ioError "disk full")) 7).2 =
      Except.error (PyExc.ioError "disk full") :=
  write_error_preserves_steps ⟨Mode.w, [5], false⟩ (PyExc.ioError "disk full") 7 rfl

/-! ## Lemmas about `TrajectoryBase.__getitem__` -/

/-- C7: `__getitem__` resolves a negative integer key by adding
`len(steps)` once, raises `IndexError` whenever the resolved key is `≥
len(steps)` (in particular at key `len(steps)` itself), and raises
`TypeError` for a key that is neither an integer nor a slice. -/
theorem getitem_key_errors (n : Nat) (i : Int) (s : String) :
    (i < 0 → 0 ≤ i + n → getitem n (Key.int i) = getitem n (Key.int (i + n))) ∧
    ((n : Int) ≤ (if i < 0 then i + n else i) →
      getitem n (Key.int i) = Except.error (PyExc.indexError
        ("Index (" ++ toString (if i < 0 then i + n else i) ++
          ") is out of range (" ++ toString n ++ ")."))) ∧
    getitem n (Key.int (n : Int)) = Except.error (PyExc.indexError
      ("Index (" ++ toString (n : Int) ++ ") is out of range (" ++ toString n ++ ").")) ∧
    getitem n (Key.str s) = Except.error (PyExc.typeError "Invalid argument type [str]") := by
  refine ⟨?_, ?_, ?_, rfl⟩
  · intro h1 h2
    simp only [getitem]
    rw [if_pos h1, if_neg (not_lt.mpr h2)]
  · intro hge
    by_cases h1 : i < 0
    · rw [if_pos h1] at hge
      simp only [getitem]
      rw [if_pos h1, if_pos hge]
    · rw [if_neg h1] at hge
      simp only [getitem]
      rw [if_neg h1, if_pos hge]
  · simp only [getitem]
    rw [if_neg (show ¬((n : Int) < 0) by omega),
      if_pos (show (n : Int) ≥ (n : Int) from le_refl _)]

/-- C7 witness: on a two-frame trajectory, key -1 resolves to 1, key 2 and
key `len` raise `IndexError`, and a string key raises `TypeError`. -/
theorem getitem_key_errors_witness :
    getitem 2 (Key.int (-1)) = getitem 2 (Key.int 1) ∧
    getitem 2 (Key.int 2) =
      Except.error (PyExc.indexError "Index (2) is out of range (2).") ∧
    getitem 2 (Key.str "x") =
      Except.error (PyExc.typeError "Invalid argument type [str]") := by
  have h := getitem_key_errors 2 (-1) "x"
  exact ⟨h.1 (by norm_num) (by norm_num), (getitem_key_errors 2 2 "x").2.2.1, h.2.2.2⟩

/-- C9: an integer key that is still negative after the single wraparound
(`key + len(steps) < 0`) is not caught by the upper-bound check and is
passed to `read` as the (still negative) shifted key instead of raising
`IndexError`. -/
theorem getitem_double_negative (n : Nat) (i : Int) (h : i + n < 0) :
    getitem n (Key.int i) = Except.ok (GetResult.readAt (i + n)) := by
  have h1 : i < 0 := by omega
  simp only [getitem]
  rw [if_pos h1, if_neg (by omega)]

/-- C9 witness: `traj[-3]` on a trajectory of length 2 delegates to
`read(-1)`. -/
theorem getitem_double_negative_witness :
    getitem 2 (Key.int (-3)) = Except.ok (GetResult.readAt (-1)) := by
  have h := getitem_double_negative 2 (-3) (by norm_num)
  norm_num at h
  exact h

/-! ## `register_callback` -/

/-- C5 (divergence witness): registering the identical callback object twice
appends two `[cbk, args, kwargs]` entries, because the guard
`cbk not in self.callbacks` compares the function object with the stored
three-element lists, which are never equal. -/
theorem register_callback_appends_duplicate :
    register_callback
        (register_callback [] (PyVal.func 0) PyVal.pynil PyVal.pynil)
        (PyVal.func 0) PyVal.pynil PyVal.pynil =
      [pyList3 (PyVal.func 0) PyVal.pynil PyVal.pynil,
       pyList3 (PyVal.func 0) PyVal.pynil PyVal.pynil] := by decide

/-! ## The `Centered` decorator -/

/-- C6: through `Centered`, the first `read_sample` at a fresh key returns
the frame with half the cell side subtracted from every particle position
and records the key; any call at an already-recorded key is a memoized no-op
returning nothing. -/
theorem centered_memoized (inner : Nat → Except PyExc Frame) (done : List Nat)
    (k : Nat) (s : Frame) (hnew : k ∉ done) (hok : inner k = Except.ok s) :
    centered_read_sample inner done k =
      (done ++ [k],
       Except.ok (some { pos := s.pos.map (fun p => p - s.side / 2), side := s.side })) ∧
    ∀ done2 : List Nat, k ∈ done2 →
      centered_read_sample inner done2 k = (done2, Except.ok none) := by
  constructor
  · simp [centered_read_sample, hnew, hok]
  · intro d hd
    simp [centered_read_sample, hd]

/-- C6 witness: a single particle at component position 4 in a cell of side
4 is centered to 2; the retry at the same key returns nothing. -/
theorem centered_memoized_witness :
    centered_read_sample (fun _ => Except.ok { pos := [4], side := 4 }) [] 0 =
      ([0], Except.ok (some { pos := [2], side := 4 })) ∧
    centered_read_sample (fun _ => Except.ok { pos := [4], side := 4 }) [0] 0 =
      ([0], Except.ok none) := by
  have h := centered_memoized (fun _ => Except.ok { pos := [4], side := 4 }) [] 0
    { pos := [4], side := 4 } (by simp) rfl
  refine ⟨?_, h.2 [0] (by simp)⟩
  have h1 := h.1
  norm_num at h1
  exact h1

/-- C10: `Centered.read_sample` records the key in its done-list before
delegating inward, so when the inner read raises, the key is nevertheless
marked as centered and every retry at that key returns nothing — no centered
frame is ever produced for it. -/
theorem centered_marks_before_read (inner : Nat → Except PyExc Frame)
    (done : List Nat) (k : Nat) (e : PyExc)
    (hnew : k ∉ done) (herr : inner k = Except.error e) :
    centered_read_sample inner done k = (done ++ [k], Except.error e) ∧
    k ∈ done ++ [k] ∧
    centered_read_sample inner (done ++ [k]) k = (done ++ [k], Except.ok none) := by
  refine ⟨?_, by simp, ?_⟩
  · simp [centered_read_sample, hnew, herr]
  · simp [centered_read_sample]

/-- C10 witness: an inner read that always fails at key 0 marks the key and
makes the retry a silent no-op. -/
theorem centered_marks_before_read_witness :
    centered_read_sample (fun _ => Except.error (PyExc.ioError "bad frame")) [] 0 =
      ([0], Except.error (PyExc.ioError "bad frame")) ∧
    (0 : Nat) ∈ ([] : List Nat) ++ [0] ∧
    centered_read_sample (fun _ => Except.error (PyExc.ioError "bad frame")) ([] ++ [0]) 0 =
      ([0], Except.ok none) := by
  have h := centered_marks_before_read (fun _ => Except.error (PyExc.ioError "bad frame"))
    [] 0 (PyExc.ioError "bad frame") (by simp) rfl
  simpa using h

/-! ## The `Unfolded` decorator -/

theorem rint_eq_one {x : ℚ} (h1 : 1 / 2 < x) (h2 : x < 3 / 2) : rint x = 1 := by
  have hfl : ⌊x⌋ = 0 ∨ ⌊x⌋ = 1 := by
    have ha : (0 : ℤ) ≤ ⌊x⌋ := Int.le_floor.mpr (by push_cast; linarith)
    have hb : ⌊x⌋ < 2 := Int.floor_lt.mpr (by push_cast; linarith)
    omega
  have hle : (⌊x⌋ : ℚ) ≤ x := Int.floor_le x
  rcases hfl with h | h
  · rw [rint, h]
    push_cast
    rw [if_neg (by linarith), if_pos (by linarith)]
  · rw [rint, h]
    push_cast
    rw [if_pos (by linarith)]

theorem rint_eq_neg_one {x : ℚ} (h1 : -(3 / 2) < x) (h2 : x < -(1 / 2)) :
    rint x = -1 := by
  have hfl : ⌊x⌋ = -2 ∨ ⌊x⌋ = -1 := by
    have ha : (-2 : ℤ) ≤ ⌊x⌋ := Int.le_floor.mpr (by push_cast; linarith)
    have hb : ⌊x⌋ < 0 := Int.floor_lt.mpr (by push_cast; linarith)
    omega
  have hle : (⌊x⌋ : ℚ) ≤ x := Int.floor_le x
  have hgt : x < (⌊x⌋ : ℚ) + 1 := Int.lt_floor_add_one x
  rcases hfl with h | h
  · rw [rint, h]
    push_cast
    rw [if_neg (by linarith), if_pos (by linarith)]
  · rw [rint, h]
    push_cast
    rw [if_pos (by linarith)]

/-- C3 (amended): through `Unfolded`, once a frame later than `k` has been
read (`_last_read > k`), requesting frame `k` for any `k ≥ 1` raises
`ValueError` (`cannot unfold jumping backwards`); `k = 0` is excluded
because the `sample == 0` early return precedes the backward check. -/
theorem unfolded_backward_seek (traj : List Frame) (st : UnfState) (k : Nat)
    (hk : 1 ≤ k) (hlt : k < st.last_read) :
    unfolded_read_sample traj st k =
      Except.error (PyExc.valueError
        ("cannot unfold jumping backwards (delta=" ++
          toString ((k : Int) - st.last_read) ++ ")")) := by
  obtain ⟨m, rfl⟩ : ∃ m, k = m + 1 := ⟨k - 1, by omega⟩
  simp only [unfolded_read_sample]
  rw [if_pos (by omega)]
  norm_num

/-- C3 (amended) witness: with `_last_read = 2`, requesting frame 1 raises
the backward-jump `ValueError` with `delta = -1`. -/
theorem unfolded_backward_seek_witness :
    unfolded_read_sample exTraj { old := [1], last_read := 2 } 1 =
      Except.error (PyExc.valueError "cannot unfold jumping backwards (delta=-1)") := by
  have h := unfolded_backward_seek exTraj { old := [1], last_read := 2 } 1
    le_rfl (by norm_num)
  exact h.trans (by rfl)

/-- C3 counterexample: reading frame 1 completes and sets `_last_read = 1`,
yet a subsequent `read_sample(0)` — a frame earlier than the last read —
returns the raw first frame instead of raising an ordering failure, because
the `sample == 0` early return precedes the backward check. -/
theorem unfolded_backward_seek_counterexample :
    unfolded_read_sample exTraj (unfolded_read_init exTraj) 1 =
      Except.ok ({ old := [1], last_read := 1 }, [1]) ∧
    unfolded_read_sample exTraj { old := [1], last_read := 1 } 0 =
      Except.ok ({ old := [1], last_read := 1 }, [0]) := by
  constructor
  · have hr : rint ((1 : ℚ) / 10) = 0 := by norm_num [rint]
    norm_num [unfolded_read_sample, unfolded_read_init, unfolded_advance,
      unfoldStep, exTraj, hr]
  · rfl

/-- C4: a strictly sequential forward read (`sample = _last_read + 1`)
through `Unfolded` returns exactly the accumulated positions of
`unfoldStep` — per component `delta = pos - previous_unfolded`, reduced by
`rint(delta / L) * L` with the current frame's cell side `L`, added to the
accumulator — and when the single tracked component crosses a periodic
boundary between the two frames (`L/2 < |p - o| < 3L/2`), the unfolded
position differs from the raw position `p` by exactly one cell length. -/
theorem unfolded_formula_and_crossing (traj : List Frame) (st : UnfState)
    (sample : Nat) (o p L : ℚ) (hseq : sample = st.last_read + 1)
    (hold : st.old = [o])
    (hframe : traj.getD sample { pos := [], side := 0 } = { pos := [p], side := L })
    (hL : 0 < L) (hlo : L / 2 < |p - o|) (hhi : |p - o| < 3 * L / 2) :
    unfolded_read_sample traj st sample =
      Except.ok ({ old := unfoldStep st.old (traj.getD sample { pos := [], side := 0 }),
                   last_read := sample },
                 unfoldStep st.old (traj.getD sample { pos := [], side := 0 })) ∧
    unfoldStep st.old (traj.getD sample { pos := [], side := 0 }) =
      [o + ((p - o) - (rint ((p - o) / L) : ℚ) * L)] ∧
    |(o + ((p - o) - (rint ((p - o) / L) : ℚ) * L)) - p| = L := by
  refine ⟨?_, ?_, ?_⟩
  · subst hseq
    simp only [unfolded_read_sample]
    rw [if_neg (by omega), if_neg (by omega)]
    rfl
  · rw [hold, hframe]
    simp [unfoldStep]
  · rcases lt_or_le (p - o) 0 with hneg | hpos
    · rw [abs_of_neg hneg] at hlo hhi
      have hx1 : -(3 / 2) < (p - o) / L := by
        rw [lt_div_iff₀ hL]
        linarith
      have hx2 : (p - o) / L < -(1 / 2) := by
        rw [div_lt_iff₀ hL]
        linarith
      rw [rint_eq_neg_one hx1 hx2]
      have he : o + ((p - o) - ((-1 : ℤ) : ℚ) * L) - p = L := by
        push_cast
        ring
      rw [he, abs_of_pos hL]
    · rw [abs_of_nonneg (by linarith)] at hlo hhi
      have hx1 : 1 / 2 < (p - o) / L := by
        rw [lt_div_iff₀ hL]
        linarith
      have hx2 : (p - o) / L < 3 / 2 := by
        rw [div_lt_iff₀ hL]
        linarith
      rw [rint_eq_one hx1 hx2]
      have he : o + ((p - o) - ((1 : ℤ) : ℚ) * L) - p = -L := by
        push_cast
        ring
      rw [he, abs_neg, abs_of_pos hL]

/-- C4 witness: in `crossTraj` the particle wraps from component position 1
to -2 across the boundary of a cell of side 4; the sequential read of frame
1 returns unfolded position 2, which differs from the raw position -2 by
exactly one cell length. -/
theorem unfolded_formula_and_crossing_witness :
    unfolded_read_sample crossTraj (unfolded_read_init crossTraj) 1 =
      Except.ok ({ old := [2], last_read := 1 }, [(2 : ℚ)]) ∧
    |(2 : ℚ) - (-2)| = 4 := by
  obtain ⟨h1, h2, h3⟩ := unfolded_formula_and_crossing crossTraj
    (unfolded_read_init crossTraj) 1 1 (-2) 4 rfl rfl rfl
    (by norm_num) (by norm_num) (by norm_num)
  have hr : rint (((-2 : ℚ) - 1) / 4) = -1 :=
    rint_eq_neg_one (by norm_num) (by norm_num)
  have hU : unfoldStep (unfolded_read_init crossTraj).old
      (crossTraj.getD 1 { pos := [], side := 0 }) = [2] := by
    rw [h2, hr]
    norm_num
  rw [h1, hU]
  norm_num

/-! ## The `SuperTrajectory` index construction -/

theorem stepsAcc_cons (acc : List Int) (s : Int) (l : List Int) :
    stepsAcc acc (s :: l) =
      stepsAcc (if acc.getLast? ≠ some s then acc ++ [s] else acc) l := rfl

theorem stepsAcc_append (acc l1 l2 : List Int) :
    stepsAcc acc (l1 ++ l2) = stepsAcc (stepsAcc acc l1) l2 := by
  simp [stepsAcc, List.foldl_append]

theorem stepsAcc_concat_destutter (l : List Int) :
    ∀ (init : List Int) (a : Int),
      stepsAcc (init ++ [a]) l = init ++ List.destutter' (· ≠ ·) a l := by
  induction l with
  | nil => intro init a; simp [stepsAcc]
  | cons b l ih =>
      intro init a
      rw [stepsAcc_cons, List.getLast?_concat, List.destutter'_cons]
      by_cases hab : a = b
      · subst hab
        rw [if_neg (by simp), if_neg (by simp)]
        exact ih init a
      · rw [if_pos (by simpa using hab), if_pos hab, ih (init ++ [a]) b]
        simp

theorem stepsAcc_nil_destutter (l : List Int) :
    stepsAcc [] l = l.destutter (· ≠ ·) := by
  cases l with
  | nil => rfl
  | cons a l =>
      rw [stepsAcc_cons]
      simp only [List.getLast?_nil, ne_eq, reduceCtorEq, not_false_eq_true, if_pos,
        List.nil_append]
      rw [show [a] = [] ++ [a] from rfl, stepsAcc_concat_destutter l [] a,
        List.destutter_cons']
      simp

theorem superEntry_steps {F : Type} (idx : SuperIndex F) (f : F) (js : Nat × Int) :
    (superEntry idx f js).steps =
      if idx.steps.getLast? ≠ some js.2 then idx.steps ++ [js.2] else idx.steps := by
  unfold superEntry
  split <;> rfl

theorem superFile_steps {F : Type} (trajOf : F → List Int) (idx : SuperIndex F)
    (f : F) : (superFile trajOf idx f).steps = stepsAcc idx.steps (trajOf f) := by
  have main : ∀ (l : List (Nat × Int)) (idx : SuperIndex F),
      ((l.foldl (fun i js => superEntry i f js) idx).steps) =
        stepsAcc idx.steps (l.map Prod.snd) := by
    intro l
    induction l with
    | nil => intro idx; rfl
    | cons js l ih =>
        intro idx
        rw [List.foldl_cons, ih, List.map_cons, stepsAcc_cons, superEntry_steps]
  rw [superFile, main ((trajOf f).enum) idx, List.enum_map_snd]

theorem superFold_steps {F : Type} (trajOf : F → List Int) (files : List F)
    (idx : SuperIndex F) :
    ((files.foldl (superFile trajOf) idx).steps) =
      stepsAcc idx.steps ((files.map trajOf).flatten) := by
  induction files generalizing idx with
  | nil => rfl
  | cons f fs ih =>
      rw [List.foldl_cons, ih, superFile_steps, List.map_cons, List.flatten_cons,
        stepsAcc_append]

theorem superEntry_balanced {F : Type} (idx : SuperIndex F) (f : F)
    (js : Nat × Int)
    (h1 : idx.steps.length = idx.steps_file.length)
    (h2 : idx.steps.length = idx.steps_frame.length) :
    (superEntry idx f js).steps.length = (superEntry idx f js).steps_file.length ∧
    (superEntry idx f js).steps.length = (superEntry idx f js).steps_frame.length := by
  unfold superEntry
  split <;> simp [h1, h2] <;> omega

theorem superFile_balanced {F : Type} (trajOf : F → List Int)
    (idx : SuperIndex F) (f : F)
    (h1 : idx.steps.length = idx.steps_file.length)
    (h2 : idx.steps.length = idx.steps_frame.length) :
    (superFile trajOf idx f).steps.length = (superFile trajOf idx f).steps_file.length ∧
    (superFile trajOf idx f).steps.length = (superFile trajOf idx f).steps_frame.length := by
  have main : ∀ (l : List (Nat × Int)) (idx : SuperIndex F),
      idx.steps.length = idx.steps_file.length →
      idx.steps.length = idx.steps_frame.length →
      (l.foldl (fun i js => superEntry i f js) idx).steps.length =
          (l.foldl (fun i js => superEntry i f js) idx).steps_file.length ∧
        (l.foldl (fun i js => superEntry i f js) idx).steps.length =
          (l.foldl (fun i js => superEntry i f js) idx).steps_frame.length := by
    intro l
    induction l with
    | nil => intro idx h1 h2; exact ⟨h1, h2⟩
    | cons js l ih =>
        intro idx h1 h2
        obtain ⟨g1, g2⟩ := superEntry_balanced idx f js h1 h2
        exact ih _ g1 g2
  exact main ((trajOf f).enum) idx h1 h2

theorem superFold_balanced {F : Type} (trajOf : F → List Int) (files : List F)
    (idx : SuperIndex F)
    (h1 : idx.steps.length = idx.steps_file.length)
    (h2 : idx.steps.length = idx.steps_frame.length) :
    (files.foldl (superFile trajOf) idx).steps.length =
        (files.foldl (superFile trajOf) idx).steps_file.length ∧
      (files.foldl (superFile trajOf) idx).steps.length =
        (files.foldl (superFile trajOf) idx).steps_frame.length := by
  induction files generalizing idx with
  | nil => exact ⟨h1, h2⟩
  | cons f fs ih =>
      obtain ⟨g1, g2⟩ := superFile_balanced trajOf idx f h1 h2
      exact ih _ g1 g2

/-- C2: for a non-empty file collection, `SuperTrajectory.__init__` succeeds
and its recorded steps are exactly the concatenation of the sorted files'
step lists with adjacent duplicates suppressed (`destutter` by `≠`), with
one file and one local-frame entry per recorded step; in particular three
single-frame files with steps `[0]`, `[10]`, `[10]` yield exactly the two
frames `steps = [0, 10]`. -/
theorem supertrajectory_index {F : Type} [LinearOrder F]
    (trajOf : F → List Int) (files : List F) (h : files ≠ []) :
    (∃ idx : SuperIndex F,
      superInit trajOf files = Except.ok idx ∧
      idx.steps =
        (((List.insertionSort (· ≤ ·) files).map trajOf).flatten).destutter (· ≠ ·) ∧
      idx.steps.length = idx.steps_file.length ∧
      idx.steps.length = idx.steps_frame.length) ∧
    superInit exTrajOf [2, 3, 1] =
      Except.ok { steps := [0, 10], steps_file := [1, 2], steps_frame := [0, 0] } := by
  constructor
  · refine ⟨(List.insertionSort (· ≤ ·) files).foldl (superFile trajOf)
      { steps := [], steps_file := [], steps_frame := [] }, ?_, ?_, ?_⟩
    · simp [superInit, h]
    · rw [superFold_steps]
      exact stepsAcc_nil_destutter _
    · exact superFold_balanced trajOf _ _ rfl rfl
  · rfl

/-- C2 witness: the three single-frame files `1 ↦ [0]`, `2 ↦ [10]`,
`3 ↦ [10]`, listed out of order, aggregate to exactly two frames with
steps `[0, 10]`. -/
theorem supertrajectory_index_witness :
    superInit exTrajOf [2, 3, 1] =
      Except.ok { steps := [0, 10], steps_file := [1, 2], steps_frame := [0, 0] } :=
  (supertrajectory_index exTrajOf [2, 3, 1] (by simp)).2

end Atooms
